import Mathlib

/-!
Verification of the exam-generation orchestration core of
`english-assistant-pro` (`src/services/geminiService.ts`).

The development shallowly embeds the three components of the core:

* the response normalizer `safeParseJSON` (markdown fence stripping followed
  by `JSON.parse`, with every parse failure replaced by a fixed actionable
  message), including an executable model of `JSON.parse` itself
  (RFC 8259 grammar, fuel-based recursive descent on `List Char`);
* the model invoker `callWithFallback` (credential resolution with JS
  falsiness, preferred-model promotion over a fixed priority list, lateral
  fallback across candidate models, aggregated failure message);
* the orchestrator `generateExam` (difficulty-rule table, input truncation,
  two-stage prompting, progress events), with the outbound generation calls
  abstracted as an oracle and the observable behaviour recorded as a trace.
-/

/-! ## JSON values

`JSON.parse` output, shape-only: numbers keep their source lexeme and strings
keep their raw (still escaped) source characters, which is enough because the
core performs no field-level validation and never interprets the parsed value.
-/

inductive JVal where
  | null
  | bool (b : Bool)
  | num (lit : List Char)
  | str (raw : List Char)
  | arr (elems : List JVal)
  | obj (members : List (List Char × JVal))

/-! ## Character classes -/

/-- Insignificant whitespace of the JSON grammar (RFC 8259 `ws`). -/
def jsonWsB (c : Char) : Bool :=
  c = ' ' || c = '\t' || c = '\n' || c = '\r'

/-- The character class trimmed by JavaScript `String.prototype.trim`
(ECMAScript WhiteSpace and LineTerminator code points). -/
def jsWsB (c : Char) : Bool :=
  c.val = 0x9 || c.val = 0xa || c.val = 0xb || c.val = 0xc || c.val = 0xd ||
  c.val = 0x20 || c.val = 0xa0 || c.val = 0x1680 ||
  (0x2000 ≤ c.val && c.val ≤ 0x200a) ||
  c.val = 0x2028 || c.val = 0x2029 || c.val = 0x202f || c.val = 0x205f ||
  c.val = 0x3000 || c.val = 0xfeff

def isHexDigitB (c : Char) : Bool :=
  c.isDigit || ('a' ≤ c && c ≤ 'f') || ('A' ≤ c && c ≤ 'F')

/-- Single-character escapes admitted after a backslash in a JSON string. -/
def isEscB (c : Char) : Bool :=
  c = '"' || c = '\\' || c = '/' || c = 'b' || c = 'f' || c = 'n' ||
  c = 'r' || c = 't'

/-! ## Lexing helpers -/

/-- Drop leading JSON whitespace. -/
def skipJWs : List Char → List Char
  | [] => []
  | c :: r => if jsonWsB c then skipJWs r else c :: r

/-- Consume the body of a JSON string after the opening quote, validating
escapes; returns the raw body characters and the input after the closing
quote. -/
def strBody : List Char → Option (List Char × List Char)
  | [] => none
  | '"' :: r => some ([], r)
  | '\\' :: r =>
    match r with
    | 'u' :: h1 :: h2 :: h3 :: h4 :: r2 =>
      if isHexDigitB h1 && isHexDigitB h2 && isHexDigitB h3 && isHexDigitB h4 then
        match strBody r2 with
        | some (raw, rest) => some ('\\' :: 'u' :: h1 :: h2 :: h3 :: h4 :: raw, rest)
        | none => none
      else none
    | e :: r2 =>
      if isEscB e then
        match strBody r2 with
        | some (raw, rest) => some ('\\' :: e :: raw, rest)
        | none => none
      else none
    | [] => none
  | c :: r =>
    if c.val < 0x20 then none
    else
      match strBody r with
      | some (raw, rest) => some (c :: raw, rest)
      | none => none

/-- Split off the longest leading run of decimal digits. -/
def takeDigits : List Char → List Char × List Char
  | [] => ([], [])
  | c :: r =>
    if c.isDigit then
      let p := takeDigits r
      (c :: p.1, p.2)
    else ([], c :: r)

/-- The integer part of a JSON number: `0`, or a nonzero digit followed by
digits. -/
def intPart : List Char → Option (List Char × List Char)
  | [] => none
  | c :: r =>
    if c = '0' then some (['0'], r)
    else if c.isDigit then
      let p := takeDigits r
      some (c :: p.1, p.2)
    else none

/-- The optional fraction part: absent, or a dot followed by one or more
digits. -/
def fracPart : List Char → Option (List Char × List Char)
  | '.' :: r =>
    let p := takeDigits r
    if p.1 = [] then none else some ('.' :: p.1, p.2)
  | l => some ([], l)

/-- The optional exponent part: absent, or `e`/`E`, optional sign, one or
more digits. -/
def expPart : List Char → Option (List Char × List Char)
  | [] => some ([], [])
  | c :: r =>
    if c = 'e' || c = 'E' then
      match r with
      | [] => none
      | s :: r2 =>
        if s = '+' || s = '-' then
          let p := takeDigits r2
          if p.1 = [] then none else some (c :: s :: p.1, p.2)
        else
          let p := takeDigits r
          if p.1 = [] then none else some (c :: p.1, p.2)
    else some ([], c :: r)

/-- An unsigned JSON number lexeme. -/
def numBody (l : List Char) : Option (List Char × List Char) :=
  match intPart l with
  | none => none
  | some (ip, r1) =>
    match fracPart r1 with
    | none => none
    | some (fp, r2) =>
      match expPart r2 with
      | none => none
      | some (ep, r3) => some (ip ++ fp ++ ep, r3)

/-- A JSON number lexeme with optional leading minus sign. -/
def parseNumber : List Char → Option (List Char × List Char)
  | '-' :: r =>
    match numBody r with
    | some (tok, rest) => some ('-' :: tok, rest)
    | none => none
  | l => numBody l

/-- Require `w` to be the next characters of the input, consuming them. -/
def expectTail (w : List Char) (l : List Char) : Option (List Char) :=
  match w, l with
  | [], rest => some rest
  | a :: w2, b :: l2 => if a = b then expectTail w2 l2 else none
  | _ :: _, [] => none

/-! ## The value parser

Recursive-descent model of `JSON.parse`.  `parseValue` expects the input to
start directly with a value (callers skip whitespace); `parseElems` and
`parseMembers` continue an array or object after its opening bracket (input
whitespace-skipped, non-empty-collection case).  The `fuel` argument only
serves totality; the top entry point supplies `length + 1`, which is ample
since every recursion level first consumes at least one character.
-/

mutual

def parseValue : Nat → List Char → Option (JVal × List Char)
  | 0, _ => none
  | Nat.succ _, [] => none
  | Nat.succ fuel, c :: r =>
    if c = '"' then
      match strBody r with
      | some (raw, rest) => some (JVal.str raw, rest)
      | none => none
    else if c = '[' then
      match skipJWs r with
      | [] => none
      | c2 :: r2 =>
        if c2 = ']' then some (JVal.arr [], r2)
        else parseElems fuel (c2 :: r2) []
    else if c = '{' then
      match skipJWs r with
      | [] => none
      | c2 :: r2 =>
        if c2 = '}' then some (JVal.obj [], r2)
        else parseMembers fuel (c2 :: r2) []
    else if c = 'n' then
      match expectTail ['u', 'l', 'l'] r with
      | some rest => some (JVal.null, rest)
      | none => none
    else if c = 't' then
      match expectTail ['r', 'u', 'e'] r with
      | some rest => some (JVal.bool true, rest)
      | none => none
    else if c = 'f' then
      match expectTail ['a', 'l', 's', 'e'] r with
      | some rest => some (JVal.bool false, rest)
      | none => none
    else
      match parseNumber (c :: r) with
      | some (tok, rest) => some (JVal.num tok, rest)
      | none => none

def parseElems : Nat → List Char → List JVal → Option (JVal × List Char)
  | 0, _, _ => none
  | Nat.succ fuel, l, acc =>
    match parseValue fuel l with
    | none => none
    | some (v, r1) =>
      match skipJWs r1 with
      | [] => none
      | c2 :: r2 =>
        if c2 = ',' then parseElems fuel (skipJWs r2) (acc ++ [v])
        else if c2 = ']' then some (JVal.arr (acc ++ [v]), r2)
        else none

def parseMembers : Nat → List Char → List (List Char × JVal) → Option (JVal × List Char)
  | 0, _, _ => none
  | Nat.succ fuel, l, acc =>
    match l with
    | [] => none
    | c :: r =>
      if c = '"' then
        match strBody r with
        | none => none
        | some (key, r1) =>
          match skipJWs r1 with
          | [] => none
          | c2 :: r2 =>
            if c2 = ':' then
              match parseValue fuel (skipJWs r2) with
              | none => none
              | some (v, r3) =>
                match skipJWs r3 with
                | [] => none
                | c3 :: r4 =>
                  if c3 = ',' then parseMembers fuel (skipJWs r4) (acc ++ [(key, v)])
                  else if c3 = '}' then some (JVal.obj (acc ++ [(key, v)]), r4)
                  else none
            else none
      else none

end

/-- Model of `JSON.parse` on a character list: a single value surrounded by
optional JSON whitespace. -/
def parseCore (l : List Char) : Option JVal :=
  match parseValue (l.length + 1) (skipJWs l) with
  | some (v, rest) =>
    match skipJWs rest with
    | [] => some v
    | _ :: _ => none
  | none => none

/-! ## Fence stripping and trimming (`safeParseJSON`)

Model of

```
const cleaned = text.replace(/^```json/i, "").replace(/```$/i, "").trim();
return JSON.parse(cleaned);
```

with any parse failure replaced by the fixed actionable message.  JavaScript
regex `^`/`$` without the `m` flag anchor at the absolute start/end of the
input (in particular `$` does not match before a final newline), and `/i`
makes only the four letters case-insensitive.
-/

/-- Does the input start with a (case-insensitive) ```` ```json ````
marker? -/
def openFenceMatch (l : List Char) : Bool :=
  match l with
  | '`' :: '`' :: '`' :: c1 :: c2 :: c3 :: c4 :: _ =>
    c1.toLower = 'j' && c2.toLower = 's' && c3.toLower = 'o' && c4.toLower = 'n'
  | _ => false

/-- `replace(/^```json/i, "")`: drop a leading fence marker, if present at
the absolute start. -/
def stripFenceOpen (l : List Char) : List Char :=
  if openFenceMatch l then l.drop 7 else l

/-- `replace(/```$/i, "")`: drop a trailing ```` ``` ```` marker, if present
at the absolute end. -/
def stripFenceClose (l : List Char) : List Char :=
  match l.reverse with
  | '`' :: '`' :: '`' :: r => r.reverse
  | _ => l

/-- JavaScript `String.prototype.trim`. -/
def jsTrim (l : List Char) : List Char :=
  ((l.dropWhile jsWsB).reverse.dropWhile jsWsB).reverse

/-- The `cleaned` text handed to `JSON.parse` by `safeParseJSON`. -/
def cleanData (l : List Char) : List Char :=
  jsTrim (stripFenceClose (stripFenceOpen l))

/-- The fixed user-facing message raised on any parse failure. -/
def tooLargeMsg : String :=
  "The exam was too large for the AI to finish. Try uploading fewer training files or shortening the Matrix/Spec."

/-- `safeParseJSON`: fence-strip, trim, parse; every parse failure is
replaced by `tooLargeMsg`. -/
def safeParseJSON (s : String) : Except String JVal :=
  match parseCore (cleanData s.data) with
  | some v => Except.ok v
  | none => Except.error tooLargeMsg

/-! ## The model invoker (`callWithFallback`)

The ambient world read by the invoker — the two stored strings from
`localStorage`, the process-level `process.env.API_KEY`, and the
generation service itself — is packaged as an explicit environment.  A call
to `ai.models.generateContent` either throws a JavaScript error or returns a
response whose `.text` may be absent; both are recorded by the oracle `gen`,
which is a pure function of the credential, the request parameters and the
model identifier (the invoker calls each model at most once, so no further
indexing is needed).
-/

/-- The request parameters forwarded by the orchestrator (always lacking a
model identifier, which the invoker supplies per attempt). -/
structure GenParams where
  contents : String
  responseMimeType : Option String

/-- A JavaScript error value: its `.message` (absent when the thrown value
has none) and its `JSON.stringify` serialization. -/
structure JsErr where
  message : Option String
  serialized : String

/-- Outcome of one `generateContent` call: a thrown error, or a response
with optional text. -/
inductive GenResult where
  | threw (e : JsErr)
  | returned (text : Option String)

/-- The ambient state read (never written) by the invoker, plus the
generation-service oracle. -/
structure InvokerEnv where
  userKey : Option String
  envApiKey : Option String
  preferredModel : Option String
  gen : String → GenParams → String → GenResult

/-- Result of `callWithFallback`, tagged by the kind of error thrown. -/
inductive InvokeResult where
  | missingKey (msg : String)
  | allFailed (msg : String)
  | ok (text : String)

/-- JavaScript falsiness of a nullable string (`null`/`undefined` and `""`
are falsy). -/
def jsFalsyOpt : Option String → Bool
  | none => true
  | some s => s = ""

/-- `a || b` on nullable strings. -/
def orFalsy (a b : Option String) : Option String :=
  if jsFalsyOpt a then b else a

/-- `const apiKey = userKey || process.env.API_KEY` followed by the
`if (!apiKey)` guard: `some` iff the invoker proceeds, and then carries the
credential actually used. -/
def resolvedApiKey (env : InvokerEnv) : Option String :=
  let k := orFalsy env.userKey env.envApiKey
  if jsFalsyOpt k then none else k

def missingKeyMsg : String :=
  "Missing API Key. Please click Settings to add your Google Gemini API Key."

def emptyRespMsg : String := "Empty response from AI"

/-- The error synthesized by `throw new Error("Empty response from AI")`
(an `Error` object `JSON.stringify`s to `{}`). -/
def emptyRespErr : JsErr := ⟨some emptyRespMsg, "\x7b\x7d"⟩

def MODEL_PRIORITY : List String :=
  ["gemini-3-flash-preview", "gemini-3-pro-preview", "gemini-2.5-flash", "gemini-2.5-pro"]

/-- Candidate order: the fixed priority list, with a stored preferred model
moved to the front when it is a non-empty member of the list. -/
def modelsToTry (pref : Option String) : List String :=
  match pref with
  | none => MODEL_PRIORITY
  | some p =>
    if p ≠ "" ∧ p ∈ MODEL_PRIORITY then p :: MODEL_PRIORITY.filter (fun m => ¬ m = p)
    else MODEL_PRIORITY

/-- One iteration of the fallback loop body for a given model: a thrown
error is caught, and a response without non-empty text is converted into the
synthesized empty-response error. -/
def attemptModel (env : InvokerEnv) (apiKey : String) (params : GenParams)
    (m : String) : Except JsErr String :=
  match env.gen apiKey params m with
  | GenResult.threw e => Except.error e
  | GenResult.returned none => Except.error emptyRespErr
  | GenResult.returned (some t) =>
    if t = "" then Except.error emptyRespErr else Except.ok t

/-- The `for (const model of modelsToTry)` loop: returns the list of models
actually attempted together with either the first non-empty text or the last
recorded error. -/
def tryEach (step : String → Except JsErr String) :
    List String → Option JsErr → List String × Except (Option JsErr) String
  | [], last => ([], Except.error last)
  | m :: rest, last =>
    match step m with
    | Except.ok t => ([m], Except.ok t)
    | Except.error e =>
      let r := tryEach step rest (some e)
      (m :: r.1, r.2)

/-- `lastError?.message || JSON.stringify(lastError)`. -/
def jsErrMessage (e : JsErr) : String :=
  match e.message with
  | none => e.serialized
  | some m => if m = "" then e.serialized else m

def allFailedPre : String := "All AI models failed. Last error: "

/-- The aggregated failure message (the `lastError = undefined` case is dead
code, as the candidate list is never empty). -/
def lastErrString : Option JsErr → String
  | none => "undefined"
  | some e => jsErrMessage e

/-- `callWithFallback`: resolve the credential, resolve the candidate order,
try each candidate once in order.  Returns the trace of models attempted
alongside the result. -/
def callWithFallback (env : InvokerEnv) (params : GenParams) :
    List String × InvokeResult :=
  match resolvedApiKey env with
  | none => ([], InvokeResult.missingKey missingKeyMsg)
  | some key =>
    let out := tryEach (attemptModel env key params) (modelsToTry env.preferredModel) none
    match out.2 with
    | Except.ok t => (out.1, InvokeResult.ok t)
    | Except.error last => (out.1, InvokeResult.allFailed (allFailedPre ++ lastErrString last))

/-! ## The orchestrator (`generateExam`)

`ExamConfig` (from `types.ts`, reconstructed from its uses): the difficulty
tier, grade label and exam-type text, plus four optional free-text blocks.
The template literals of the source are transcribed verbatim (with `\x27`,
`\x7b`, `\x7d` escapes for apostrophes and braces); JS template interpolation
of a possibly-`undefined` value renders the text `undefined`.
-/

structure ExamConfig where
  level : String
  gradeLevel : String
  examType : String
  structureContent : Option String
  matrixContent : Option String
  specificationContent : Option String
  referenceContent : Option String

def primaryRule : String :=
  "\n    **For PRIMARY (Grade 3-5):**\n    - Vocabulary: Basic 500-1000 common words\n    - Grammar: Simple present, present continuous, basic sentence structures\n    - Reading passages: 80-150 words, simple topics (family, school, animals, daily activities)\n    - Question types: Multiple choice, fill-in-the-blank, picture matching\n    - Language complexity: A1-A2 CEFR level\n    - Sentence length: 5-10 words average\n    - Instructions: Simple and clear Vietnamese translations provided\n    \n    Example differentiation:\n    - Grade 3: \"The cat is on the table.\" (Simple present, basic vocabulary)\n  "

def middleSchoolRule : String :=
  "\n    **For MIDDLE SCHOOL (Grade 6-9):**\n    - Vocabulary: 1500-2500 words, topic-based vocabulary\n    - Grammar: All basic tenses, conditionals, passive voice, reported speech\n    - Reading passages: 200-300 words, varied topics (culture, environment, technology basics)\n    - Question types: Multiple choice, gap-filling, short answers, true/false\n    - Language complexity: A2-B1 CEFR level\n    - Sentence length: 10-15 words average\n    - Mix of concrete and some abstract concepts\n    \n    Example differentiation:\n    - Grade 7: \"If I had more time, I would visit my grandparents.\" (Second conditional, family relationships)\n  "

def highSchoolRule : String :=
  "\n    **For HIGH SCHOOL (Grade 10-12):**\n    - Vocabulary: 3000-5000 words, academic and specialized vocabulary\n    - Grammar: Complex structures, inversion, cleft sentences, advanced conditionals\n    - Reading passages: 350-500 words, academic topics (science, social issues, literature analysis)\n    - Question types: Multiple choice, long answers, essay-style, inference questions\n    - Language complexity: B1-B2 CEFR level\n    - Sentence length: 15-20 words average\n    - Abstract thinking and critical analysis required\n    \n    Example differentiation:\n    - Grade 11: \"Despite numerous challenges, the environmental conservation movement has gained significant momentum globally.\" (Complex sentence, academic vocabulary)\n  "

/-- The result of a JavaScript bracket lookup on the `DIFFICULTY_RULES`
object literal: one of its three own data properties (a rule string), a
property inherited from `Object.prototype` (a truthy function or object),
or `undefined`. -/
inductive JsLookup where
  | ownRule (s : String)
  | inherited (name : String)
  | undef
deriving DecidableEq

/-- The property names of `Object.prototype`, all of which a plain object
literal inherits and all of whose values are truthy. -/
def protoProps : List String :=
  ["constructor", "hasOwnProperty", "isPrototypeOf", "propertyIsEnumerable",
   "toLocaleString", "toString", "valueOf", "__defineGetter__",
   "__defineSetter__", "__lookupGetter__", "__lookupSetter__", "__proto__"]

/-- The fixed difficulty-rule table: `DIFFICULTY_RULES[key]` as JavaScript
evaluates it — an own key yields its rule string, any `Object.prototype`
property name yields the inherited (truthy) member, anything else yields
`undefined`. -/
def DIFFICULTY_RULES (key : String) : JsLookup :=
  if key = "Primary" then JsLookup.ownRule primaryRule
  else if key = "Middle School" then JsLookup.ownRule middleSchoolRule
  else if key = "High School" then JsLookup.ownRule highSchoolRule
  else if key ∈ protoProps then JsLookup.inherited key
  else JsLookup.undef

/-- JavaScript falsiness of a lookup result: `undefined` and the empty
string are falsy; inherited functions/objects are truthy. -/
def jsLookupFalsy : JsLookup → Bool
  | JsLookup.undef => true
  | JsLookup.ownRule s => s = ""
  | JsLookup.inherited _ => false

/-- `a || b` on lookup results. -/
def jsLookupOr (a b : JsLookup) : JsLookup :=
  if jsLookupFalsy a then b else a

/-- `DIFFICULTY_RULES[config.level] || DIFFICULTY_RULES['Middle School']`:
the value actually bound to `difficultyRule` in the source.  For a level
naming an `Object.prototype` member the inherited value is truthy, so the
fallback never fires. -/
def difficultyRuleVal (level : String) : JsLookup :=
  jsLookupOr (DIFFICULTY_RULES level) (DIFFICULTY_RULES "Middle School")

/-- `String(v)` for an inherited `Object.prototype` member: native
functions serialize to the ECMAScript NativeFunction form (the
`constructor` property is the `Object` function), and the `__proto__`
accessor yields `Object.prototype` itself, which serializes as
`[object Object]`. -/
def protoPropString (name : String) : String :=
  if name = "__proto__" then "[object Object]"
  else if name = "constructor" then "function Object() \x7b [native code] \x7d"
  else "function " ++ name ++ "() \x7b [native code] \x7d"

/-- Template-literal interpolation of a lookup result. -/
def jsLookupTmpl : JsLookup → String
  | JsLookup.ownRule s => s
  | JsLookup.inherited name => protoPropString name
  | JsLookup.undef => "undefined"

/-- The text interpolated for `${difficultyRule}` in both prompts. -/
def difficultyRule (level : String) : String :=
  jsLookupTmpl (difficultyRuleVal level)

/-- `s.slice(0, n)`: the first `n` characters of `s`. -/
def jsSlice (s : String) (n : Nat) : String :=
  String.mk (s.data.take n)

/-- `config.referenceContent?.slice(0, 15000) || "None"` (the empty result
is falsy and also becomes `"None"`). -/
def prunedRef (c : ExamConfig) : String :=
  match c.referenceContent with
  | none => "None"
  | some s =>
    let t := jsSlice s 15000
    if t = "" then "None" else t

/-- `config.matrixContent?.slice(0, 5000)`. -/
def prunedMatrix (c : ExamConfig) : Option String :=
  c.matrixContent.map (fun s => jsSlice s 5000)

/-- `config.specificationContent?.slice(0, 5000)`. -/
def prunedSpec (c : ExamConfig) : Option String :=
  c.specificationContent.map (fun s => jsSlice s 5000)

/-- Template-literal interpolation of a possibly-`undefined` string. -/
def optTmpl : Option String → String
  | none => "undefined"
  | some s => s

/-- `config.structureContent || "Standard GDPT 2018"`. -/
def structureOrDefault (c : ExamConfig) : String :=
  match c.structureContent with
  | none => "Standard GDPT 2018"
  | some s => if s = "" then "Standard GDPT 2018" else s

def sysPre : String :=
  "\n    When user selects a grade level, you MUST:\n    1. Analyze the selected grade ("

def sysMid : String :=
  ")\n    2. Apply the appropriate difficulty parameters below\n    3. Generate exam content that matches EXACTLY the complexity level for that grade\n    4. Use age-appropriate topics and contexts\n    5. Adjust vocabulary, grammar structures, and cognitive demands accordingly\n    6. Ensure reading passages and questions are neither too easy nor too difficult for the target grade\n    \n    "

def sysEnd : String := "\n  "

def systemInstruction (c : ExamConfig) : String :=
  sysPre ++ c.gradeLevel ++ sysMid ++ difficultyRule c.level ++ sysEnd

def step1Pre : String :=
  "\n    Role: Senior Assessment Specialist.\n    Analyze these requirements and create a logic-only blueprint.\n    \n    STRICT DIFFICULTY CONTROL:\n    "

def step1MidA : String := "\n\n    Target Structure: "

def step1MidB : String := "\n    Matrix: "

def step1MidC : String := "\n    Spec: "

def step1MidD : String := "\n    Training Context (Excerpt): "

def step1MidE : String :=
  "\n\n    Task:\n    1. Extract number of questions per section.\n    2. Define grammar/vocab focus per section.\n    3. Generate a High-Quality Reading Passage (concise, ~250 words) appropriate for "

def step1End : String := ".\n    4. Provide a structural plan. No full JSON yet.\n  "

def step1Prompt (c : ExamConfig) : String :=
  step1Pre ++ systemInstruction c ++ step1MidA ++ structureOrDefault c ++
  step1MidB ++ optTmpl (prunedMatrix c) ++ step1MidC ++ optTmpl (prunedSpec c) ++
  step1MidD ++ prunedRef c ++ step1MidE ++ c.gradeLevel ++ step1End

def step2Pre : String :=
  "\n    Role: Professional English Teacher.\n    Create the FINAL EXAM JSON based on this plan: "

def step2MidA : String := "\n    \n    CRITICAL DIFFICULTY ENFORCEMENT for "

def step2MidB : String := ":\n    "

def step2MidC : String :=
  "\n    \n    CRITICAL RULES for JSON Size Efficiency:\n    1. DO NOT repeat the reading passage or long descriptions inside individual \x27questions\x27. \n    2. Put shared text ONLY in the section\x27s \x27text\x27 field.\n    3. Keep question texts concise.\n    4. Ensure the JSON is valid and complete.\n\n    Exam Metadata: "

def step2MidD : String := " - "

def step2MidE : String := ", Time: "

def step2End : String :=
  ".\n    Formatting: Use Vietnamese headers (\"I. PHẦN TRẮC NGHIỆM\").\n\n    Return ONLY JSON with this structure:\n    \x7b\n      \"examTitle\": \"string\",\n      \"duration\": \"string\",\n      \"content\": [\n        \x7b\n          \"section\": \"string\",\n          \"text\": \"string (shared passage here)\",\n          \"questions\": [\x7b \"id\": \"Question 1\", \"text\": \"concise question\", \"points\": 0.2, \"parts\": [\x7b\"label\": \"A.\", \"content\": \"...\"\x7d] \x7d]\n        \x7d\n      ],\n      \"answers\": [\x7b \"questionId\": \"Question 1\", \"answer\": \"A\", \"pointsDetail\": \"0.2 pts\" \x7d]\n    \x7d\n  "

def step2Prompt (c : ExamConfig) (plan : String) : String :=
  step2Pre ++ plan ++ step2MidA ++ c.gradeLevel ++ step2MidB ++
  systemInstruction c ++ step2MidC ++ c.level ++ step2MidD ++ c.gradeLevel ++
  step2MidE ++ c.examType ++ step2End

def mimeJson : String := "application/json"

/-- Parameters of the stage-1 invocation (plain text, no response-format
hint). -/
def step1Params (c : ExamConfig) : GenParams :=
  ⟨step1Prompt c, none⟩

/-- Parameters of the stage-2 invocation (JSON response-format hint). -/
def step2Params (c : ExamConfig) (plan : String) : GenParams :=
  ⟨step2Prompt c plan, some mimeJson⟩

def step1Msg : String := "Step 1/2: Analyzing Matrix & Training Data..."

def step2Msg : String := "Step 2/2: Generating Exam Content (Be patient)..."

/-- Externally observable actions of one `generateExam` invocation, in
order: progress-callback invocations and outbound generation calls. -/
inductive Event where
  | progress (msg : String)
  | genCall (model : String)

/-- Result of `generateExam`, tagged by the kind of error thrown. -/
inductive ExamOutcome where
  | ok (v : JVal)
  | errMissingKey (msg : String)
  | errAllFailed (msg : String)
  | errParse (msg : String)

/-- `generateExam`: progress, stage-1 invocation, progress, stage-2
invocation, parse.  Returns the event trace alongside the outcome; each
stage runs only if the previous one succeeded. -/
def generateExam (env : InvokerEnv) (c : ExamConfig) : List Event × ExamOutcome :=
  let r1 := callWithFallback env (step1Params c)
  let tr1 := Event.progress step1Msg :: r1.1.map Event.genCall
  match r1.2 with
  | InvokeResult.missingKey m => (tr1, ExamOutcome.errMissingKey m)
  | InvokeResult.allFailed m => (tr1, ExamOutcome.errAllFailed m)
  | InvokeResult.ok plan =>
    let r2 := callWithFallback env (step2Params c plan)
    let tr2 := tr1 ++ Event.progress step2Msg :: r2.1.map Event.genCall
    match r2.2 with
    | InvokeResult.missingKey m => (tr2, ExamOutcome.errMissingKey m)
    | InvokeResult.allFailed m => (tr2, ExamOutcome.errAllFailed m)
    | InvokeResult.ok text =>
      match safeParseJSON text with
      | Except.ok v => (tr2, ExamOutcome.ok v)
      | Except.error m => (tr2, ExamOutcome.errParse m)
/-! ## Invoker lemmas -/

/-- Unfolding: a candidate that fails passes the recorded error on. -/
theorem tryEach_cons_error (step : String → Except JsErr String) {m : String}
    {e : JsErr} (rest : List String) (last : Option JsErr)
    (hs : step m = Except.error e) :
    tryEach step (m :: rest) last =
      (m :: (tryEach step rest (some e)).1, (tryEach step rest (some e)).2) := by
  simp [tryEach, hs]

/-- Unfolding: a candidate that succeeds stops the loop. -/
theorem tryEach_cons_ok (step : String → Except JsErr String) {m t : String}
    (rest : List String) (last : Option JsErr) (hs : step m = Except.ok t) :
    tryEach step (m :: rest) last = ([m], Except.ok t) := by
  simp [tryEach, hs]

/-- The trace of attempted models is a prefix of the candidate list. -/
theorem tryEach_trace_pre (step : String → Except JsErr String) :
    ∀ (l : List String) (last : Option JsErr),
      ∃ rest, (tryEach step l last).1 ++ rest = l := by
  intro l
  induction l with
  | nil => intro last; exact ⟨[], rfl⟩
  | cons m tail ih =>
    intro last
    cases hs : step m with
    | ok t =>
      refine ⟨tail, ?_⟩
      rw [tryEach_cons_ok step tail last hs]
      rfl
    | error e =>
      obtain ⟨rest, hrest⟩ := ih (some e)
      refine ⟨rest, ?_⟩
      rw [tryEach_cons_error step tail last hs]
      simpa using hrest

/-- When every candidate fails, the loop attempts all of them and ends with
the error recorded for the last candidate. -/
theorem tryEach_exhaust (step : String → Except JsErr String) :
    ∀ (l : List String) (last : Option JsErr), l ≠ [] →
      (∀ m ∈ l, ∃ e, step m = Except.error e) →
      ∃ m e, l.getLast? = some m ∧ step m = Except.error e ∧
        tryEach step l last = (l, Except.error (some e)) := by
  intro l
  induction l with
  | nil => intro last hne _; exact absurd rfl hne
  | cons m tail ih =>
    intro last _ hfail
    obtain ⟨e0, he0⟩ := hfail m (List.mem_cons_self m tail)
    cases tail with
    | nil =>
      refine ⟨m, e0, rfl, he0, ?_⟩
      rw [tryEach_cons_error step [] last he0]
      simp [tryEach]
    | cons m2 tail2 =>
      obtain ⟨mL, eL, h1, h2, h3⟩ :=
        ih (some e0) (List.cons_ne_nil m2 tail2)
          (fun m' hm' => hfail m' (List.mem_cons_of_mem m hm'))
      refine ⟨mL, eL, ?_, h2, ?_⟩
      · rw [List.getLast?_cons_cons]; exact h1
      · rw [tryEach_cons_error step (m2 :: tail2) last he0, h3]

/-- When candidate number `k+1` (0-indexed `k`) is the first to succeed, the
loop attempts exactly the first `k+1` candidates and returns its text. -/
theorem tryEach_first_ok (step : String → Except JsErr String) :
    ∀ (l : List String) (last : Option JsErr) (k : Nat) (hk : k < l.length) (t : String),
      (∀ m ∈ l.take k, ∃ e, step m = Except.error e) →
      step (l.get ⟨k, hk⟩) = Except.ok t →
      tryEach step l last = (l.take (k + 1), Except.ok t) := by
  intro l
  induction l with
  | nil => intro last k hk; exact absurd hk (by simp)
  | cons m tail ih =>
    intro last k hk t hfail hok
    cases k with
    | zero =>
      have hok2 : step m = Except.ok t := hok
      rw [tryEach_cons_ok step tail last hok2]
      simp
    | succ k =>
      obtain ⟨e0, he0⟩ := hfail m (by simp [List.take_succ_cons])
      have ihr :=
        ih (some e0) k (by simpa using hk) t
          (fun m' hm' => hfail m' (by simp [List.take_succ_cons, hm']))
          (by simpa using hok)
      rw [tryEach_cons_error step tail last he0, ihr]
      simp [List.take_succ_cons]

theorem MODEL_PRIORITY_nodup : MODEL_PRIORITY.Nodup := by decide

theorem modelsToTry_ne_nil (pref : Option String) : modelsToTry pref ≠ [] := by
  cases pref with
  | none => simp [modelsToTry, MODEL_PRIORITY]
  | some p =>
    simp only [modelsToTry]
    by_cases hc : p ≠ "" ∧ p ∈ MODEL_PRIORITY
    · rw [if_pos hc]; simp
    · rw [if_neg hc]; simp [ MODEL_PRIORITY]

theorem modelsToTry_nodup (pref : Option String) : (modelsToTry pref).Nodup := by
  have hMP := MODEL_PRIORITY_nodup
  cases pref with
  | none => exact hMP
  | some p =>
    simp only [modelsToTry]
    by_cases hc : p ≠ "" ∧ p ∈ MODEL_PRIORITY
    · rw [if_pos hc]
      refine List.Nodup.cons ?_ (hMP.filter _)
      intro hmem
      rcases List.mem_filter.mp hmem with ⟨_, hpp⟩
      simp at hpp
    · rw [if_neg hc]; exact hMP

/-! ## Claims about the model invoker -/

/-- C1: when every candidate model call raises an error or returns a
response without non-empty text, `callWithFallback` fails with the
`AllModelsFailed` error whose message embeds the last recorded error's
message (or its serialization when it carries no plain message, per
`jsErrMessage`), and the number of generation calls never exceeds the number
of candidate models. -/
theorem C1_fallback_exhaustion (env : InvokerEnv) (params : GenParams) (key : String)
    (hkey : resolvedApiKey env = some key)
    (hfail : ∀ m ∈ modelsToTry env.preferredModel,
      ∃ e, attemptModel env key params m = Except.error e) :
    ∃ mLast e,
      (modelsToTry env.preferredModel).getLast? = some mLast ∧
      attemptModel env key params mLast = Except.error e ∧
      callWithFallback env params =
        (modelsToTry env.preferredModel,
         InvokeResult.allFailed (allFailedPre ++ jsErrMessage e)) ∧
      (callWithFallback env params).1.length ≤ (modelsToTry env.preferredModel).length := by
  obtain ⟨mL, e, h1, h2, h3⟩ :=
    tryEach_exhaust (attemptModel env key params) (modelsToTry env.preferredModel) none
      (modelsToTry_ne_nil _) hfail
  have hcall : callWithFallback env params =
      (modelsToTry env.preferredModel,
       InvokeResult.allFailed (allFailedPre ++ jsErrMessage e)) := by
    simp [callWithFallback, hkey, h3, lastErrString]
  exact ⟨mL, e, h1, h2, hcall, by rw [hcall]⟩

/-- C2: when candidate `k` (1-indexed) is the first whose call returns
non-empty text, exactly `k` generation calls are made (the first `k`
candidates, each at most once), the text is returned, and no candidate after
`k` is invoked. -/
theorem C2_first_success (env : InvokerEnv) (params : GenParams) (key : String)
    (k : Nat) (t : String)
    (hkey : resolvedApiKey env = some key)
    (hk1 : 1 ≤ k) (hk : k - 1 < (modelsToTry env.preferredModel).length)
    (hfail : ∀ m ∈ (modelsToTry env.preferredModel).take (k - 1),
      ∃ e, attemptModel env key params m = Except.error e)
    (hok : attemptModel env key params
      ((modelsToTry env.preferredModel).get ⟨k - 1, hk⟩) = Except.ok t) :
    callWithFallback env params =
      ((modelsToTry env.preferredModel).take k, InvokeResult.ok t) ∧
    (callWithFallback env params).1.length = k ∧
    (∀ m, (callWithFallback env params).1.count m ≤ 1) ∧
    (∀ m ∈ (modelsToTry env.preferredModel).drop k,
      m ∉ (callWithFallback env params).1) := by
  have htr := tryEach_first_ok (attemptModel env key params)
    (modelsToTry env.preferredModel) none (k - 1) hk t hfail hok
  have hk2 : k - 1 + 1 = k := by omega
  rw [hk2] at htr
  have hcall : callWithFallback env params =
      ((modelsToTry env.preferredModel).take k, InvokeResult.ok t) := by
    simp [callWithFallback, hkey, htr]
  have hlen : k ≤ (modelsToTry env.preferredModel).length := by omega
  refine ⟨hcall, ?_, ?_, ?_⟩
  · rw [hcall]; simpa using hlen
  · intro m
    rw [hcall]
    have hnd : ((modelsToTry env.preferredModel).take k).Nodup :=
      (modelsToTry_nodup env.preferredModel).sublist (List.take_sublist k _)
    exact List.nodup_iff_count_le_one.mp hnd m
  · intro m hm hmem
    rw [hcall] at hmem
    have hnd := modelsToTry_nodup env.preferredModel
    rw [← List.take_append_drop k (modelsToTry env.preferredModel)] at hnd
    exact (List.nodup_append.mp hnd).2.2 hmem hm

/-- C3: with both the session credential and the process-level default
absent, `callWithFallback` fails with the `MissingCredential` error and
performs zero generation calls (empty trace); with both present, the session
credential is the one resolved. -/
theorem C3_credential_rules :
    (∀ (env : InvokerEnv) (params : GenParams), env.userKey = none →
      env.envApiKey = none →
      callWithFallback env params = ([], InvokeResult.missingKey missingKeyMsg)) ∧
    (∀ (env : InvokerEnv) (u e : String), env.userKey = some u → u ≠ "" →
      env.envApiKey = some e → resolvedApiKey env = some u) := by
  constructor
  · intro env params hu he
    simp [callWithFallback, resolvedApiKey, orFalsy, jsFalsyOpt, hu, he]
  · intro env u e hu hne he
    simp [resolvedApiKey, orFalsy, jsFalsyOpt, hu, he, hne]

/-- C4: a stored preferred model present in the priority list is tried
first, followed by the priority list with that entry removed, order
preserved; the models actually attempted are a prefix of that order. -/
theorem C4_preferred_first (p : String) (hp : p ∈ MODEL_PRIORITY) :
    modelsToTry (some p) = p :: MODEL_PRIORITY.erase p ∧
    (∀ (env : InvokerEnv) (params : GenParams), env.preferredModel = some p →
      ∃ rest, (callWithFallback env params).1 ++ rest =
        p :: MODEL_PRIORITY.erase p) := by
  have hmain : modelsToTry (some p) = p :: MODEL_PRIORITY.erase p := by
    fin_cases hp <;> decide
  refine ⟨hmain, ?_⟩
  intro env params hpref
  rcases hk : resolvedApiKey env with _ | key
  · refine ⟨p :: MODEL_PRIORITY.erase p, ?_⟩
    simp [callWithFallback, hk]
  · obtain ⟨rest, hrest⟩ := tryEach_trace_pre (attemptModel env key params)
      (modelsToTry env.preferredModel) none
    refine ⟨rest, ?_⟩
    have h1 : (callWithFallback env params).1 =
        (tryEach (attemptModel env key params)
          (modelsToTry env.preferredModel) none).1 := by
      simp only [callWithFallback, hk]
      split <;> rfl
    rw [hpref] at hrest
    rw [h1, hpref, ← hmain]
    exact hrest

/-! ## Witness environments -/

def paramsW : GenParams := ⟨"PROMPT", none⟩

def errW : JsErr := ⟨some "boom", "SER"⟩

/-- Every model call throws. -/
def envAllFailW : InvokerEnv :=
  ⟨some "KEY", none, none, fun _ _ _ => GenResult.threw errW⟩

/-- The first model throws, the second returns text. -/
def envSecondOkW : InvokerEnv :=
  ⟨some "KEY", none, none, fun _ _ m =>
    if m = "gemini-3-pro-preview" then GenResult.returned (some "TEXT")
    else GenResult.threw errW⟩

/-- No credential anywhere. -/
def envNoKeyW : InvokerEnv :=
  ⟨none, none, none, fun _ _ _ => GenResult.returned (some "TEXT")⟩

/-- Both credentials present. -/
def envBothKeysW : InvokerEnv :=
  ⟨some "USERKEY", some "ENVKEY", none, fun _ _ _ => GenResult.returned (some "TEXT")⟩

/-- Preferred model stored, every call throws. -/
def envPrefW : InvokerEnv :=
  ⟨some "KEY", none, some "gemini-2.5-flash", fun _ _ _ => GenResult.threw errW⟩

/-- Witness for C1 at a concrete environment where every model throws. -/
theorem C1_fallback_exhaustion_witness :
    ∃ mLast e,
      (modelsToTry envAllFailW.preferredModel).getLast? = some mLast ∧
      attemptModel envAllFailW "KEY" paramsW mLast = Except.error e ∧
      callWithFallback envAllFailW paramsW =
        (modelsToTry envAllFailW.preferredModel,
         InvokeResult.allFailed (allFailedPre ++ jsErrMessage e)) ∧
      (callWithFallback envAllFailW paramsW).1.length ≤
        (modelsToTry envAllFailW.preferredModel).length :=
  C1_fallback_exhaustion envAllFailW paramsW "KEY" rfl (fun _ _ => ⟨errW, rfl⟩)

/-- Witness for C2 with the second candidate the first to succeed. -/
theorem C2_first_success_witness :
    callWithFallback envSecondOkW paramsW =
      ((modelsToTry envSecondOkW.preferredModel).take 2, InvokeResult.ok "TEXT") ∧
    (callWithFallback envSecondOkW paramsW).1.length = 2 ∧
    (∀ m, (callWithFallback envSecondOkW paramsW).1.count m ≤ 1) ∧
    (∀ m ∈ (modelsToTry envSecondOkW.preferredModel).drop 2,
      m ∉ (callWithFallback envSecondOkW paramsW).1) :=
  C2_first_success envSecondOkW paramsW "KEY" 2 "TEXT" rfl (by decide) (by decide)
    (by
      intro m hm
      rw [show (modelsToTry envSecondOkW.preferredModel).take (2 - 1) =
        ["gemini-3-flash-preview"] from rfl] at hm
      simp at hm
      subst hm
      exact ⟨errW, rfl⟩)
    rfl

/-- Witness for C3 at concrete environments. -/
theorem C3_credential_rules_witness :
    callWithFallback envNoKeyW paramsW = ([], InvokeResult.missingKey missingKeyMsg) ∧
    resolvedApiKey envBothKeysW = some "USERKEY" :=
  ⟨C3_credential_rules.1 envNoKeyW paramsW rfl rfl,
   C3_credential_rules.2 envBothKeysW "USERKEY" "ENVKEY" rfl (by decide) rfl⟩

/-- Witness for C4 with a concrete stored preference. -/
theorem C4_preferred_first_witness :
    modelsToTry (some "gemini-2.5-flash") =
      "gemini-2.5-flash" :: MODEL_PRIORITY.erase "gemini-2.5-flash" ∧
    ∃ rest, (callWithFallback envPrefW paramsW).1 ++ rest =
      "gemini-2.5-flash" :: MODEL_PRIORITY.erase "gemini-2.5-flash" := by
  have h := C4_preferred_first "gemini-2.5-flash" (by decide)
  exact ⟨h.1, h.2 envPrefW paramsW rfl⟩

/-! ## Parser lemmas

The consumed-input lemmas below establish, for every sub-parser, that a
successful parse splits its input as `consumed ++ rest` with a non-empty
`consumed` ending in a "good" character (closing quote/bracket/brace, final
letter of a literal word, or a digit).  They drive the fence-stripping
claims: a backtick is never a good end character, so text accepted by
`JSON.parse` cannot end in a fence marker.
-/

theorem skipJWs_decomp : ∀ l : List Char,
    ∃ a, l = a ++ skipJWs l ∧ ∀ c ∈ a, jsonWsB c = true := by
  intro l
  induction l with
  | nil => exact ⟨[], rfl, by simp⟩
  | cons c r ih =>
    by_cases hc : jsonWsB c
    · obtain ⟨a, ha, haw⟩ := ih
      refine ⟨c :: a, ?_, ?_⟩
      · simpa [skipJWs, hc] using ha
      · intro x hx
        rcases List.mem_cons.mp hx with rfl | hx
        · exact hc
        · exact haw x hx
    · exact ⟨[], by simp [skipJWs, hc], by simp⟩

theorem skipJWs_nil_ws : ∀ l : List Char, skipJWs l = [] →
    ∀ c ∈ l, jsonWsB c = true := by
  intro l
  induction l with
  | nil => simp
  | cons c r ih =>
    intro h x hx
    by_cases hc : jsonWsB c
    · rw [show skipJWs (c :: r) = skipJWs r from by simp [skipJWs, hc]] at h
      rcases List.mem_cons.mp hx with rfl | hx
      · exact hc
      · exact ih h x hx
    · simp [skipJWs, hc] at h

theorem skipJWs_id_of_head {c : Char} (r : List Char) (h : jsonWsB c = false) :
    skipJWs (c :: r) = c :: r := by
  simp [skipJWs, h]

theorem expectTail_decomp : ∀ w l rest : List Char,
    expectTail w l = some rest → l = w ++ rest := by
  intro w
  induction w with
  | nil =>
    intro l rest h
    simp only [expectTail, Option.some.injEq] at h
    simp [h]
  | cons a w2 ih =>
    intro l rest h
    cases l with
    | nil => simp [expectTail] at h
    | cons b l2 =>
      simp only [expectTail] at h
      split at h
      · rename_i hab
        have := ih l2 rest h
        simp [← hab, this]
      · exact absurd h (by simp)

theorem strBody_consumes (l : List Char) :
    ∀ raw rest, strBody l = some (raw, rest) → ∃ p, l = p ++ '"' :: rest := by
  induction l using strBody.induct with
  | case1 => intro raw rest h; simp [strBody] at h
  | case2 r =>
    intro raw rest h
    simp only [strBody, Option.some.injEq, Prod.mk.injEq] at h
    exact ⟨[], by simp [h.2]⟩
  | case3 h1 h2 h3 h4 r2 hhex raw0 rest0 hr2 ih =>
    intro raw rest h
    simp only [strBody, hhex, hr2, if_true, Option.some.injEq, Prod.mk.injEq] at h
    obtain ⟨p, hp⟩ := ih raw0 rest0 hr2
    refine ⟨'\\' :: 'u' :: h1 :: h2 :: h3 :: h4 :: p, ?_⟩
    simp [hp, ← h.2]
  | case4 h1 h2 h3 h4 r2 hhex hr2 ih =>
    intro raw rest h
    simp [strBody, hhex, hr2] at h
  | case5 h1 h2 h3 h4 r2 hhex =>
    intro raw rest h
    simp [strBody, hhex] at h
  | case6 e r2 hne hesc raw0 rest0 hr2 ih =>
    intro raw rest h
    simp only [strBody, hesc, hr2, if_true, Option.some.injEq, Prod.mk.injEq] at h
    obtain ⟨p, hp⟩ := ih raw0 rest0 hr2
    refine ⟨'\\' :: e :: p, ?_⟩
    simp [hp, ← h.2]
  | case7 e r2 hne hesc hr2 ih =>
    intro raw rest h
    simp [strBody, hesc, hr2] at h
  | case8 e r2 hne hesc =>
    intro raw rest h
    simp [strBody, hesc] at h
  | case9 =>
    intro raw rest h
    simp [strBody] at h
  | case10 c r hq hb hctl =>
    intro raw rest h
    simp [strBody, hq, hb, hctl] at h
  | case11 c r hq hb hctl raw0 rest0 hr ih =>
    intro raw rest h
    simp only [strBody, hq, hb, hctl, if_false, hr, Option.some.injEq, Prod.mk.injEq] at h
    obtain ⟨p, hp⟩ := ih raw0 rest0 hr
    refine ⟨c :: p, ?_⟩
    simp [hp, ← h.2]
  | case12 c r hq hb hctl hr ih =>
    intro raw rest h
    simp [strBody, hq, hb, hctl, hr] at h

theorem takeDigits_decomp : ∀ l : List Char,
    l = (takeDigits l).1 ++ (takeDigits l).2 ∧
    ∀ c ∈ (takeDigits l).1, c.isDigit = true := by
  intro l
  induction l with
  | nil => simp [takeDigits]
  | cons c r ih =>
    by_cases hc : c.isDigit
    · constructor
      · simpa [takeDigits, hc] using ih.1
      · intro x hx
        simp only [takeDigits, hc, if_true] at hx
        rcases List.mem_cons.mp hx with rfl | hx
        · exact hc
        · exact ih.2 x hx
    · simp [takeDigits, hc]

/-- The token ends in a decimal digit. -/
def lastDigit (tok : List Char) : Prop :=
  ∃ d, tok.getLast? = some d ∧ d.isDigit = true

theorem lastDigit_of_all {tok : List Char} (hne : tok ≠ [])
    (h : ∀ c ∈ tok, c.isDigit = true) : lastDigit tok :=
  ⟨tok.getLast hne, List.getLast?_eq_getLast tok hne, h _ (List.getLast_mem hne)⟩

theorem lastDigit_append_right (l1 : List Char) {l2 : List Char} (h : lastDigit l2) :
    lastDigit (l1 ++ l2) := by
  obtain ⟨d, hd, hdig⟩ := h
  have hne : l2 ≠ [] := by
    intro hnil
    rw [hnil] at hd
    simp at hd
  exact ⟨d, by rw [List.getLast?_append_of_ne_nil l1 hne]; exact hd, hdig⟩

theorem intPart_spec : ∀ l tok rest, intPart l = some (tok, rest) →
    l = tok ++ rest ∧ lastDigit tok := by
  intro l tok rest h
  cases l with
  | nil => simp [intPart] at h
  | cons c r =>
    simp only [intPart] at h
    split at h
    · rename_i h0
      simp only [Option.some.injEq, Prod.mk.injEq] at h
      rw [← h.1, ← h.2, h0]
      exact ⟨rfl, '0', rfl, by decide⟩
    · split at h
      · rename_i h0 hdig
        simp only [Option.some.injEq, Prod.mk.injEq] at h
        obtain ⟨htd, htdall⟩ := takeDigits_decomp r
        rw [← h.1, ← h.2]
        constructor
        · simpa using htd
        · refine lastDigit_of_all (by simp) ?_
          intro x hx
          rcases List.mem_cons.mp hx with rfl | hx
          · exact hdig
          · exact htdall x hx
      · exact absurd h (by simp)

theorem fracPart_cons_ne_dot {c : Char} (r : List Char) (hc : ¬ c = '.') :
    fracPart (c :: r) = some ([], c :: r) := by
  unfold fracPart
  split
  · rename_i heq
    injection heq with h1 h2
    exact absurd h1 hc
  · rfl

theorem parseNumber_cons_ne_dash {c : Char} (r : List Char) (hc : ¬ c = '-') :
    parseNumber (c :: r) = numBody (c :: r) := by
  unfold parseNumber
  split
  · rename_i heq
    injection heq with h1 h2
    exact absurd h1 hc
  · rfl

theorem fracPart_spec : ∀ l tok rest, fracPart l = some (tok, rest) →
    l = tok ++ rest ∧ (tok = [] ∨ lastDigit tok) := by
  intro l tok rest h
  cases l with
  | nil =>
    simp only [fracPart, Option.some.injEq, Prod.mk.injEq] at h
    rw [← h.1, ← h.2]
    exact ⟨rfl, Or.inl rfl⟩
  | cons c r =>
    by_cases hc : c = '.'
    · subst hc
      simp only [fracPart] at h
      split at h
      · exact absurd h (by simp)
      · rename_i hne
        simp only [Option.some.injEq, Prod.mk.injEq] at h
        obtain ⟨htd, htdall⟩ := takeDigits_decomp r
        rw [← h.1, ← h.2]
        refine ⟨by simpa using htd, Or.inr ?_⟩
        exact lastDigit_append_right ['.']
          (lastDigit_of_all hne htdall)
    · rw [fracPart_cons_ne_dot r hc] at h
      simp only [Option.some.injEq, Prod.mk.injEq] at h
      rw [← h.1, ← h.2]
      exact ⟨rfl, Or.inl rfl⟩

theorem expPart_spec : ∀ l tok rest, expPart l = some (tok, rest) →
    l = tok ++ rest ∧ (tok = [] ∨ lastDigit tok) := by
  intro l tok rest h
  cases l with
  | nil =>
    simp only [expPart, Option.some.injEq, Prod.mk.injEq] at h
    rw [← h.1, ← h.2]
    exact ⟨rfl, Or.inl rfl⟩
  | cons c r =>
    by_cases hce : (c = 'e' || c = 'E') = true
    · cases r with
      | nil => simp [expPart, hce] at h
      | cons s r2 =>
        by_cases hs : (s = '+' || s = '-') = true
        · simp only [expPart, hce, hs, if_true] at h
          split at h
          · exact absurd h (by simp)
          · rename_i hne
            simp only [Option.some.injEq, Prod.mk.injEq] at h
            obtain ⟨htd, htdall⟩ := takeDigits_decomp r2
            rw [← h.1, ← h.2]
            refine ⟨by simpa using htd, Or.inr ?_⟩
            exact lastDigit_append_right [c, s]
              (lastDigit_of_all hne htdall)
        · have hs2 : (s = '+' || s = '-') = false := by
            simpa using hs
          simp only [expPart, hce, hs2, if_true, Bool.false_eq_true, if_false] at h
          split at h
          · exact absurd h (by simp)
          · rename_i hne
            simp only [Option.some.injEq, Prod.mk.injEq] at h
            obtain ⟨htd, htdall⟩ := takeDigits_decomp (s :: r2)
            rw [← h.1, ← h.2]
            refine ⟨by simpa using htd, Or.inr ?_⟩
            exact lastDigit_append_right [c]
              (lastDigit_of_all hne htdall)
    · have hce2 : (c = 'e' || c = 'E') = false := by
        simpa using hce
      simp only [expPart, hce2, Bool.false_eq_true, if_false,
        Option.some.injEq, Prod.mk.injEq] at h
      rw [← h.1, ← h.2]
      exact ⟨rfl, Or.inl rfl⟩

theorem numBody_spec : ∀ l tok rest, numBody l = some (tok, rest) →
    l = tok ++ rest ∧ lastDigit tok := by
  intro l tok rest h
  rcases hip : intPart l with _ | ⟨ip, r1⟩
  · simp [numBody, hip] at h
  · rcases hfp : fracPart r1 with _ | ⟨fp, r2⟩
    · simp [numBody, hip, hfp] at h
    · rcases hep : expPart r2 with _ | ⟨ep, r3⟩
      · simp [numBody, hip, hfp, hep] at h
      · simp only [numBody, hip, hfp, hep, Option.some.injEq, Prod.mk.injEq] at h
        obtain ⟨hip1, hip2⟩ := intPart_spec l ip r1 hip
        obtain ⟨hfp1, hfp2⟩ := fracPart_spec r1 fp r2 hfp
        obtain ⟨hep1, hep2⟩ := expPart_spec r2 ep r3 hep
        rw [← h.1, ← h.2]
        constructor
        · rw [hip1, hfp1, hep1]
          simp [List.append_assoc]
        · rcases hep2 with rfl | hlep
          · rcases hfp2 with rfl | hlfp
            · simpa using hip2
            · simpa using lastDigit_append_right ip hlfp
          · exact lastDigit_append_right (ip ++ fp) hlep

/-- The property of the character just before the leftover input in a
successful parse: every parsed JSON value ends in one of these. -/
def GoodEndB (c : Char) : Prop :=
  c = '"' ∨ c = ']' ∨ c = '}' ∨ c = 'l' ∨ c = 'e' ∨ c.isDigit = true

theorem goodEnd_of_lastDigit {l tok rest : List Char}
    (hl : l = tok ++ rest) (hd : lastDigit tok) :
    ∃ p c, l = p ++ c :: rest ∧ GoodEndB c := by
  obtain ⟨d, hdl, hdig⟩ := hd
  have hne : tok ≠ [] := by
    intro hnil
    rw [hnil] at hdl
    simp at hdl
  have hdec : tok.dropLast ++ [tok.getLast hne] = tok := List.dropLast_append_getLast hne
  have hget : tok.getLast hne = d := by
    have h2 := List.getLast?_eq_getLast tok hne
    rw [h2] at hdl
    exact Option.some.inj hdl
  refine ⟨tok.dropLast, d, ?_, Or.inr (Or.inr (Or.inr (Or.inr (Or.inr hdig))))⟩
  rw [hl, ← hdec, hget]
  simp

theorem parseNumber_goodEnd : ∀ l tok rest, parseNumber l = some (tok, rest) →
    ∃ p c, l = p ++ c :: rest ∧ GoodEndB c := by
  intro l tok rest h
  cases l with
  | nil =>
    rw [show parseNumber [] = none from rfl] at h
    exact absurd h (by simp)
  | cons c r =>
    by_cases hc : c = '-'
    · subst hc
      rcases hnb : numBody r with _ | ⟨tok0, rest0⟩
      · simp [parseNumber, hnb] at h
      · simp only [parseNumber, hnb, Option.some.injEq, Prod.mk.injEq] at h
        obtain ⟨hr, hld⟩ := numBody_spec r tok0 rest0 hnb
        have hsplit : '-' :: r = ('-' :: tok0) ++ rest0 := by simp [hr]
        rw [← h.2]
        exact goodEnd_of_lastDigit hsplit (lastDigit_append_right ['-'] hld)
    · rw [parseNumber_cons_ne_dash r hc] at h
      obtain ⟨hl, hld⟩ := numBody_spec (c :: r) tok rest h
      exact goodEnd_of_lastDigit hl hld

/-- Main structural lemma: a successful parse consumes a non-empty prefix
that ends in a good character (`GoodEndB`), and array/object continuations
consume up to a closing bracket/brace. -/
theorem parse_goodEnd : ∀ fuel : Nat,
    (∀ l v rest, parseValue fuel l = some (v, rest) →
      ∃ p c, l = p ++ c :: rest ∧ GoodEndB c) ∧
    (∀ l acc v rest, parseElems fuel l acc = some (v, rest) →
      ∃ p, l = p ++ ']' :: rest) ∧
    (∀ l acc v rest, parseMembers fuel l acc = some (v, rest) →
      ∃ p, l = p ++ '}' :: rest) := by
  intro fuel
  induction fuel with
  | zero =>
    refine ⟨?_, ?_, ?_⟩
    · intro l v rest h; simp [parseValue] at h
    · intro l acc v rest h; simp [parseElems] at h
    · intro l acc v rest h; simp [parseMembers] at h
  | succ fuel ih =>
    obtain ⟨ihV, ihE, ihM⟩ := ih
    refine ⟨?_, ?_, ?_⟩
    · -- parseValue
      intro l v rest h
      cases l with
      | nil => simp [parseValue] at h
      | cons c r =>
        simp only [parseValue] at h
        by_cases h1 : c = '"'
        · subst h1
          rw [if_pos rfl] at h
          rcases hsb : strBody r with _ | ⟨raw, rest0⟩
          · simp [hsb] at h
          · simp only [hsb, Option.some.injEq, Prod.mk.injEq] at h
            obtain ⟨p, hp⟩ := strBody_consumes r raw rest0 hsb
            refine ⟨'"' :: p, '"', ?_, Or.inl rfl⟩
            rw [hp, h.2]
            simp
        · rw [if_neg h1] at h
          by_cases h2 : c = '['
          · subst h2
            rw [if_pos rfl] at h
            rcases hsw : skipJWs r with _ | ⟨c2, r2⟩
            · simp [hsw] at h
            · simp only [hsw] at h
              obtain ⟨a, ha, _⟩ := skipJWs_decomp r
              rw [hsw] at ha
              by_cases hc2 : c2 = ']'
              · subst hc2
                rw [if_pos rfl] at h
                simp only [Option.some.injEq, Prod.mk.injEq] at h
                refine ⟨'[' :: a, ']', ?_, Or.inr (Or.inl rfl)⟩
                rw [ha, h.2]
                simp
              · rw [if_neg hc2] at h
                obtain ⟨p, hp⟩ := ihE (c2 :: r2) [] v rest h
                refine ⟨'[' :: (a ++ p), ']', ?_, Or.inr (Or.inl rfl)⟩
                rw [ha, hp]
                simp
          · rw [if_neg h2] at h
            by_cases h3 : c = '{'
            · subst h3
              rw [if_pos rfl] at h
              rcases hsw : skipJWs r with _ | ⟨c2, r2⟩
              · simp [hsw] at h
              · simp only [hsw] at h
                obtain ⟨a, ha, _⟩ := skipJWs_decomp r
                rw [hsw] at ha
                by_cases hc2 : c2 = '}'
                · subst hc2
                  rw [if_pos rfl] at h
                  simp only [Option.some.injEq, Prod.mk.injEq] at h
                  refine ⟨'{' :: a, '}', ?_, Or.inr (Or.inr (Or.inl rfl))⟩
                  rw [ha, h.2]
                  simp
                · rw [if_neg hc2] at h
                  obtain ⟨p, hp⟩ := ihM (c2 :: r2) [] v rest h
                  refine ⟨'{' :: (a ++ p), '}', ?_, Or.inr (Or.inr (Or.inl rfl))⟩
                  rw [ha, hp]
                  simp
            · rw [if_neg h3] at h
              by_cases h4 : c = 'n'
              · subst h4
                rw [if_pos rfl] at h
                rcases het : expectTail ['u', 'l', 'l'] r with _ | rest0
                · simp [het] at h
                · simp only [het, Option.some.injEq, Prod.mk.injEq] at h
                  have hr := expectTail_decomp ['u', 'l', 'l'] r rest0 het
                  refine ⟨['n', 'u', 'l'], 'l', ?_,
                    Or.inr (Or.inr (Or.inr (Or.inl rfl)))⟩
                  rw [hr, h.2]
                  simp
              · rw [if_neg h4] at h
                by_cases h5 : c = 't'
                · subst h5
                  rw [if_pos rfl] at h
                  rcases het : expectTail ['r', 'u', 'e'] r with _ | rest0
                  · simp [het] at h
                  · simp only [het, Option.some.injEq, Prod.mk.injEq] at h
                    have hr := expectTail_decomp ['r', 'u', 'e'] r rest0 het
                    refine ⟨['t', 'r', 'u'], 'e', ?_,
                      Or.inr (Or.inr (Or.inr (Or.inr (Or.inl rfl))))⟩
                    rw [hr, h.2]
                    simp
                · rw [if_neg h5] at h
                  by_cases h6 : c = 'f'
                  · subst h6
                    rw [if_pos rfl] at h
                    rcases het : expectTail ['a', 'l', 's', 'e'] r with _ | rest0
                    · simp [het] at h
                    · simp only [het, Option.some.injEq, Prod.mk.injEq] at h
                      have hr := expectTail_decomp ['a', 'l', 's', 'e'] r rest0 het
                      refine ⟨['f', 'a', 'l', 's'], 'e', ?_,
                        Or.inr (Or.inr (Or.inr (Or.inr (Or.inl rfl))))⟩
                      rw [hr, h.2]
                      simp
                  · rw [if_neg h6] at h
                    rcases hnum : parseNumber (c :: r) with _ | ⟨tok, rest0⟩
                    · simp [hnum] at h
                    · simp only [hnum, Option.some.injEq, Prod.mk.injEq] at h
                      obtain ⟨p, d, hp, hgd⟩ :=
                        parseNumber_goodEnd (c :: r) tok rest0 hnum
                      exact ⟨p, d, by rw [← h.2]; exact hp, hgd⟩
    · -- parseElems
      intro l acc v rest h
      simp only [parseElems] at h
      rcases hpv : parseValue fuel l with _ | ⟨v1, r1⟩
      · simp [hpv] at h
      · simp only [hpv] at h
        rcases hsw : skipJWs r1 with _ | ⟨c2, r2⟩
        · simp [hsw] at h
        · simp only [hsw] at h
          obtain ⟨pv, cv, hpv1, _⟩ := ihV l v1 r1 hpv
          obtain ⟨a1, ha1, _⟩ := skipJWs_decomp r1
          rw [hsw] at ha1
          by_cases hc2 : c2 = ','
          · subst hc2
            rw [if_pos rfl] at h
            obtain ⟨a2, ha2, _⟩ := skipJWs_decomp r2
            obtain ⟨p, hp⟩ := ihE (skipJWs r2) (acc ++ [v1]) v rest h
            refine ⟨pv ++ cv :: a1 ++ ',' :: a2 ++ p, ?_⟩
            rw [hpv1, ha1, ha2, hp]
            simp
          · rw [if_neg hc2] at h
            by_cases hc2b : c2 = ']'
            · subst hc2b
              rw [if_pos rfl] at h
              simp only [Option.some.injEq, Prod.mk.injEq] at h
              refine ⟨pv ++ cv :: a1, ?_⟩
              rw [hpv1, ha1, h.2]
              simp
            · rw [if_neg hc2b] at h
              exact absurd h (by simp)
    · -- parseMembers
      intro l acc v rest h
      cases l with
      | nil => simp [parseMembers] at h
      | cons c r =>
        simp only [parseMembers] at h
        by_cases hc : c = '"'
        · subst hc
          rw [if_pos rfl] at h
          rcases hsb : strBody r with _ | ⟨key, r1⟩
          · simp [hsb] at h
          · simp only [hsb] at h
            rcases hsw1 : skipJWs r1 with _ | ⟨c2, r2⟩
            · simp [hsw1] at h
            · simp only [hsw1] at h
              obtain ⟨pk, hpk⟩ := strBody_consumes r key r1 hsb
              obtain ⟨a1, ha1, _⟩ := skipJWs_decomp r1
              rw [hsw1] at ha1
              by_cases hc2 : c2 = ':'
              · subst hc2
                rw [if_pos rfl] at h
                rcases hpv : parseValue fuel (skipJWs r2) with _ | ⟨v1, r3⟩
                · simp [hpv] at h
                · simp only [hpv] at h
                  rcases hsw3 : skipJWs r3 with _ | ⟨c3, r4⟩
                  · simp [hsw3] at h
                  · simp only [hsw3] at h
                    obtain ⟨a2, ha2, _⟩ := skipJWs_decomp r2
                    obtain ⟨pv, cv, hpv1, _⟩ := ihV (skipJWs r2) v1 r3 hpv
                    obtain ⟨a3, ha3, _⟩ := skipJWs_decomp r3
                    rw [hsw3] at ha3
                    by_cases hc3 : c3 = ','
                    · subst hc3
                      rw [if_pos rfl] at h
                      obtain ⟨a4, ha4, _⟩ := skipJWs_decomp r4
                      obtain ⟨p, hp⟩ := ihM (skipJWs r4) (acc ++ [(key, v1)]) v rest h
                      refine ⟨'"' :: pk ++ '"' :: a1 ++ ':' :: a2 ++ pv ++
                        cv :: a3 ++ ',' :: a4 ++ p, ?_⟩
                      rw [hpk, ha1, ha2, hpv1, ha3, ha4, hp]
                      simp
                    · rw [if_neg hc3] at h
                      by_cases hc3b : c3 = '}'
                      · subst hc3b
                        rw [if_pos rfl] at h
                        simp only [Option.some.injEq, Prod.mk.injEq] at h
                        refine ⟨'"' :: pk ++ '"' :: a1 ++ ':' :: a2 ++ pv ++
                          cv :: a3, ?_⟩
                        rw [hpk, ha1, ha2, hpv1, ha3, h.2]
                        simp
                      · rw [if_neg hc3b] at h
                        exact absurd h (by simp)
              · rw [if_neg hc2] at h
                exact absurd h (by simp)
        · rw [if_neg hc] at h
          exact absurd h (by simp)

/-! ## Corollaries: accepted text neither starts nor ends with a backtick -/

theorem parseValue_backtick (fuel : Nat) (r : List Char) :
    parseValue fuel ('`' :: r) = none := by
  cases fuel with
  | zero => rfl
  | succ f =>
    simp only [parseValue]
    rw [if_neg (by decide), if_neg (by decide), if_neg (by decide),
      if_neg (by decide), if_neg (by decide), if_neg (by decide)]
    rw [parseNumber_cons_ne_dash r (by decide)]
    simp [numBody, intPart]

theorem parseCore_backtick_head (xs : List Char) : parseCore ('`' :: xs) = none := by
  unfold parseCore
  rw [skipJWs_id_of_head xs (by decide), parseValue_backtick]

theorem parseCore_last_ne_tick {L : List Char} {v : JVal}
    (h : parseCore L = some v) : L.getLast? ≠ some '`' := by
  intro hlast
  unfold parseCore at h
  rcases hpv : parseValue (L.length + 1) (skipJWs L) with _ | ⟨v1, rest⟩
  · rw [hpv] at h; exact absurd h (by simp)
  · rw [hpv] at h
    rcases hsw : skipJWs rest with _ | ⟨c2, r2⟩
    · obtain ⟨p, c, hp, hgd⟩ :=
        (parse_goodEnd (L.length + 1)).1 (skipJWs L) v1 rest hpv
      obtain ⟨a, ha, _⟩ := skipJWs_decomp L
      have hws := skipJWs_nil_ws rest hsw
      rw [hp] at ha
      cases hrest : rest with
      | nil =>
        subst hrest
        rw [ha] at hlast
        rw [show a ++ (p ++ c :: ([] : List Char)) = (a ++ p) ++ [c] from by simp] at hlast
        rw [List.getLast?_concat] at hlast
        have hc : c = '`' := Option.some.inj hlast
        subst hc
        rcases hgd with h1 | h1 | h1 | h1 | h1 | h1 <;> simp at h1
      | cons d r3 =>
        have hne : rest ≠ [] := by rw [hrest]; simp
        rw [ha] at hlast
        rw [show a ++ (p ++ c :: rest) = (a ++ p ++ [c]) ++ rest from by simp] at hlast
        rw [List.getLast?_append_of_ne_nil _ hne] at hlast
        have hmem : '`' ∈ rest := by
          have h2 := List.getLast?_eq_getLast rest hne
          rw [h2] at hlast
          have h3 := Option.some.inj hlast
          rw [← h3]
          exact List.getLast_mem hne
        exact absurd (hws '`' hmem) (by decide)
    · simp only [hsw] at h
      exact absurd h (by simp)

theorem jsTrim_cons_of_head {c : Char} (r : List Char) (h : jsWsB c = false) :
    ∃ r2, jsTrim (c :: r) = c :: r2 := by
  have hys : ∃ ys, (c :: r).reverse.dropWhile jsWsB = ys ++ [c] := by
    rw [List.reverse_cons, List.dropWhile_append]
    split
    · exact ⟨[], by simp [List.dropWhile_cons, h]⟩
    · exact ⟨r.reverse.dropWhile jsWsB, rfl⟩
  obtain ⟨ys, hys⟩ := hys
  refine ⟨ys.reverse, ?_⟩
  simp only [jsTrim, List.dropWhile_cons, h, Bool.false_eq_true, if_false]
  rw [hys]
  simp

theorem jsTrim_getLast_of {l : List Char} {c : Char} (hl : l.getLast? = some c)
    (h : jsWsB c = false) : (jsTrim l).getLast? = some c := by
  have hne : l ≠ [] := by
    intro hnil; rw [hnil] at hl; simp at hl
  have hget : l.getLast hne = c := by
    have h2 := List.getLast?_eq_getLast l hne
    rw [h2] at hl
    exact Option.some.inj hl
  have hdec : l.dropLast ++ [c] = l := by
    rw [← hget]; exact List.dropLast_append_getLast hne
  have hstep1 : ∃ ys, l.dropWhile jsWsB = ys ++ [c] := by
    rw [← hdec, List.dropWhile_append]
    split
    · exact ⟨[], by simp [List.dropWhile_cons, h]⟩
    · exact ⟨l.dropLast.dropWhile jsWsB, rfl⟩
  obtain ⟨ys, hys⟩ := hstep1
  simp only [jsTrim, hys]
  rw [List.reverse_append]
  simp only [List.reverse_cons, List.reverse_nil, List.nil_append, List.singleton_append]
  rw [List.dropWhile_cons]
  simp only [h, Bool.false_eq_true, if_false]
  simp

/-- `openFenceMatch` forces the seven-character shape. -/
theorem openFenceMatch_shape {t : List Char} (h : openFenceMatch t = true) :
    ∃ c1 c2 c3 c4 xs, t = '`' :: '`' :: '`' :: c1 :: c2 :: c3 :: c4 :: xs := by
  unfold openFenceMatch at h
  split at h
  · rename_i c1 c2 c3 c4 xs
    exact ⟨c1, c2, c3, c4, xs, rfl⟩
  · exact absurd h (by simp)

/-- Text whose JS-trim parses as JSON does not start with the opening fence
marker, so the first `replace` leaves it unchanged. -/
theorem stripFenceOpen_of_parse {t : List Char} {v : JVal}
    (h : parseCore (jsTrim t) = some v) : stripFenceOpen t = t := by
  unfold stripFenceOpen
  by_cases hm : openFenceMatch t = true
  · obtain ⟨c1, c2, c3, c4, xs, hshape⟩ := openFenceMatch_shape hm
    rw [hshape] at h
    obtain ⟨r2, hr2⟩ := jsTrim_cons_of_head
      ('`' :: '`' :: c1 :: c2 :: c3 :: c4 :: xs) (show jsWsB '`' = false from by decide)
    rw [hr2, parseCore_backtick_head] at h
    exact absurd h (by simp)
  · rw [if_neg hm]

/-- Text whose JS-trim parses as JSON does not end with the closing fence
marker, so the second `replace` leaves it unchanged. -/
theorem stripFenceClose_of_parse {t : List Char} {v : JVal}
    (h : parseCore (jsTrim t) = some v) : stripFenceClose t = t := by
  unfold stripFenceClose
  split
  · rename_i r heq
    have hlast : t.getLast? = some '`' := by
      rw [List.getLast?_eq_head?_reverse, heq]
      rfl
    have := parseCore_last_ne_tick h (jsTrim_getLast_of hlast (by decide))
    exact absurd this (fun hf => hf)
  · rfl

/-- Stripping the opening marker off a wrapped payload. -/
theorem stripFenceOpen_wrap (l : List Char) :
    stripFenceOpen ('`' :: '`' :: '`' :: 'j' :: 's' :: 'o' :: 'n' :: l) = l := rfl

/-- Same, with the marker letters in upper case (the regex is
case-insensitive). -/
theorem stripFenceOpen_wrap_upper (l : List Char) :
    stripFenceOpen ('`' :: '`' :: '`' :: 'J' :: 'S' :: 'O' :: 'N' :: l) = l := rfl

/-- Stripping the closing marker off a wrapped payload. -/
theorem stripFenceClose_wrap (l : List Char) :
    stripFenceClose (l ++ ['`', '`', '`']) = l := by
  unfold stripFenceClose
  rw [show (l ++ ['`', '`', '`']).reverse = '`' :: '`' :: '`' :: l.reverse from by simp]
  simp

/-! ## Claims about the response normalizer -/

def fenceOpenStr : String := "```json"

def fenceOpenUpperStr : String := "```JSON"

def fenceCloseStr : String := "```"

/-- C5: `safeParseJSON` never lets a raw parse exception reach the caller —
if cleaning fails to parse, it fails with exactly the size-related actionable
message — and any input that parses after fence-stripping is returned as-is,
whatever its shape (no schema validation). -/
theorem C5_parse_failure_translated (s : String) :
    (parseCore (cleanData s.data) = none →
      safeParseJSON s = Except.error tooLargeMsg) ∧
    (∀ v, parseCore (cleanData s.data) = some v →
      safeParseJSON s = Except.ok v) ∧
    (∀ m, safeParseJSON s = Except.error m → m = tooLargeMsg) := by
  refine ⟨?_, ?_, ?_⟩
  · intro h; simp [safeParseJSON, h]
  · intro v h; simp [safeParseJSON, h]
  · intro m h
    unfold safeParseJSON at h
    rcases hp : parseCore (cleanData s.data) with _ | v
    · simp only [hp, Except.error.injEq] at h
      exact h.symm
    · simp only [hp] at h
      exact absurd h (by simp)

def badStrW : String := "not json"

def okStrW : String := "\x7b\"a\":1\x7d"

/-- Witness for C5: an unparsable input yields the size message, a parsable
one yields its value. -/
theorem C5_parse_failure_translated_witness :
    safeParseJSON badStrW = Except.error tooLargeMsg ∧
    safeParseJSON okStrW = Except.ok (JVal.obj [(['a'], JVal.num ['1'])]) :=
  ⟨(C5_parse_failure_translated badStrW).1 rfl,
   (C5_parse_failure_translated okStrW).2.1 (JVal.obj [(['a'], JVal.num ['1'])]) rfl⟩

/-- C6: wrapping a JSON text in a leading (case-insensitive) ```` ```json ````
marker and a trailing ```` ``` ```` marker is transparent to the
normalizer — the wrapped and the unwrapped text parse to the same value. -/
theorem C6_fence_transparent (t : String) (v : JVal)
    (h : parseCore (jsTrim t.data) = some v) :
    safeParseJSON (fenceOpenStr ++ t ++ fenceCloseStr) = Except.ok v ∧
    safeParseJSON (fenceOpenUpperStr ++ t ++ fenceCloseStr) = Except.ok v ∧
    safeParseJSON t = Except.ok v := by
  refine ⟨?_, ?_, ?_⟩
  · have hclean : cleanData (fenceOpenStr ++ t ++ fenceCloseStr).data = jsTrim t.data := by
      have h0 : (fenceOpenStr ++ t ++ fenceCloseStr).data =
          '`' :: '`' :: '`' :: 'j' :: 's' :: 'o' :: 'n' :: (t.data ++ ['`', '`', '`']) := by
        show (fenceOpenStr.data ++ t.data) ++ fenceCloseStr.data = _
        rw [List.append_assoc]
        rfl
      unfold cleanData
      rw [h0, stripFenceOpen_wrap, stripFenceClose_wrap]
    unfold safeParseJSON
    rw [hclean, h]
  · have hclean : cleanData (fenceOpenUpperStr ++ t ++ fenceCloseStr).data = jsTrim t.data := by
      have h0 : (fenceOpenUpperStr ++ t ++ fenceCloseStr).data =
          '`' :: '`' :: '`' :: 'J' :: 'S' :: 'O' :: 'N' :: (t.data ++ ['`', '`', '`']) := by
        show (fenceOpenUpperStr.data ++ t.data) ++ fenceCloseStr.data = _
        rw [List.append_assoc]
        rfl
      unfold cleanData
      rw [h0, stripFenceOpen_wrap_upper, stripFenceClose_wrap]
    unfold safeParseJSON
    rw [hclean, h]
  · have hclean : cleanData t.data = jsTrim t.data := by
      unfold cleanData
      rw [stripFenceOpen_of_parse h, stripFenceClose_of_parse h]
    unfold safeParseJSON
    rw [hclean, h]

def jsonTextW : String := "\n\x7b\"k\": [true, null]\x7d\n"

def jsonValW : JVal := JVal.obj [(['k'], JVal.arr [JVal.bool true, JVal.null])]

/-- Witness for C6 on a concrete JSON text with surrounding whitespace. -/
theorem C6_fence_transparent_witness :
    safeParseJSON (fenceOpenStr ++ jsonTextW ++ fenceCloseStr) = Except.ok jsonValW ∧
    safeParseJSON (fenceOpenUpperStr ++ jsonTextW ++ fenceCloseStr) = Except.ok jsonValW ∧
    safeParseJSON jsonTextW = Except.ok jsonValW :=
  C6_fence_transparent jsonTextW jsonValW rfl

def spacedFenceW : String := " ```json\x7b\"a\":1\x7d```"

def newlineFenceW : String := "```json\x7b\"a\":1\x7d```\n"

def exactFenceW : String := "```json\x7b\"a\":1\x7d```"

/-- C10: fence markers are stripped only when anchored at the absolute start
or end of the raw (untrimmed) string: a marker preceded or followed by any
character survives, so an otherwise well-formed fenced payload with a
leading space or a trailing newline fails with the size-related error, while
the exactly-anchored payload parses. -/
theorem C10_fence_anchoring :
    (∀ (c : Char) (l : List Char),
      stripFenceOpen (c :: '`' :: '`' :: '`' :: 'j' :: 's' :: 'o' :: 'n' :: l) =
        c :: '`' :: '`' :: '`' :: 'j' :: 's' :: 'o' :: 'n' :: l) ∧
    (∀ (l : List Char) (c : Char), ¬ c = '`' →
      stripFenceClose (l ++ '`' :: '`' :: '`' :: [c]) =
        l ++ '`' :: '`' :: '`' :: [c]) ∧
    safeParseJSON spacedFenceW = Except.error tooLargeMsg ∧
    safeParseJSON newlineFenceW = Except.error tooLargeMsg ∧
    safeParseJSON exactFenceW = Except.ok (JVal.obj [(['a'], JVal.num ['1'])]) := by
  refine ⟨?_, ?_, rfl, rfl, rfl⟩
  · intro c l
    have hm : openFenceMatch
        (c :: '`' :: '`' :: '`' :: 'j' :: 's' :: 'o' :: 'n' :: l) = false := by
      by_cases hc : c = '`'
      · subst hc; rfl
      · unfold openFenceMatch
        split
        · rename_i heq
          injection heq with h1 _
          exact absurd h1 hc
        · rfl
    simp [stripFenceOpen, hm]
  · intro l c hc
    unfold stripFenceClose
    rw [show (l ++ '`' :: '`' :: '`' :: [c]).reverse =
      c :: '`' :: '`' :: '`' :: l.reverse from by simp]
    split
    · rename_i heq
      injection heq with h1 _
      exact absurd h1 hc
    · rfl

/-- Witness for C10: a closing marker followed by one more character is not
stripped. -/
theorem C10_fence_anchoring_witness :
    stripFenceClose (['x'] ++ '`' :: '`' :: '`' :: ['y']) =
      ['x'] ++ '`' :: '`' :: '`' :: ['y'] :=
  C10_fence_anchoring.2.1 ['x'] 'y' (by decide)

/-! ## Claims about the orchestrator -/

/-- One string occurs inside another, in concatenation form. -/
theorem embed_trans {x y z : String} (h1 : ∃ a b, x = a ++ y ++ b)
    (h2 : ∃ a b, y = a ++ z ++ b) : ∃ a b, x = a ++ z ++ b := by
  obtain ⟨a1, b1, e1⟩ := h1
  obtain ⟨a2, b2, e2⟩ := h2
  refine ⟨a1 ++ a2, b2 ++ b1, ?_⟩
  rw [e1, e2]
  simp [String.append_assoc]

/-- C7: the optional free-text inputs are truncated independently by hard
character cutoff — reference to its first 15000 characters, matrix and
specification to their first 5000 each — before being embedded in the
stage-1 prompt. -/
theorem C7_truncation (c : ExamConfig) :
    (∀ s, c.referenceContent = some s → 15000 < s.length →
      prunedRef c = String.mk (s.data.take 15000) ∧
      (prunedRef c).length = 15000 ∧
      ∃ a b, step1Prompt c = a ++ prunedRef c ++ b) ∧
    (∀ s, c.matrixContent = some s → 5000 < s.length →
      prunedMatrix c = some (String.mk (s.data.take 5000)) ∧
      (∀ t, prunedMatrix c = some t → t.length = 5000) ∧
      ∃ a b, step1Prompt c = a ++ optTmpl (prunedMatrix c) ++ b) ∧
    (∀ s, c.specificationContent = some s → 5000 < s.length →
      prunedSpec c = some (String.mk (s.data.take 5000)) ∧
      (∀ t, prunedSpec c = some t → t.length = 5000) ∧
      ∃ a b, step1Prompt c = a ++ optTmpl (prunedSpec c) ++ b) := by
  refine ⟨?_, ?_, ?_⟩
  · intro s href hlen
    have hdne : s.data ≠ [] := by
      intro hnil
      have hz : s.length = 0 := by
        show s.data.length = 0
        rw [hnil]
        rfl
      omega
    have hne : jsSlice s 15000 ≠ "" := by
      intro heq
      have hd : (jsSlice s 15000).data = ("" : String).data := by rw [heq]
      simp only [jsSlice] at hd
      rcases List.take_eq_nil_iff.mp hd with h0 | h0
      · exact absurd h0 (by omega)
      · exact absurd h0 hdne
    have hval : prunedRef c = jsSlice s 15000 := by
      unfold prunedRef
      rw [href]
      show (if jsSlice s 15000 = "" then "None" else jsSlice s 15000) = jsSlice s 15000
      rw [if_neg hne]
    refine ⟨hval, ?_, ?_⟩
    · rw [hval]
      show (s.data.take 15000).length = 15000
      rw [List.length_take]
      have h15 : 15000 < s.data.length := hlen
      omega
    · refine ⟨step1Pre ++ systemInstruction c ++ step1MidA ++ structureOrDefault c ++
        step1MidB ++ optTmpl (prunedMatrix c) ++ step1MidC ++ optTmpl (prunedSpec c) ++
        step1MidD, step1MidE ++ c.gradeLevel ++ step1End, ?_⟩
      simp [step1Prompt, String.append_assoc]
  · intro s hmat hlen
    have hval : prunedMatrix c = some (jsSlice s 5000) := by
      unfold prunedMatrix
      rw [hmat]
      rfl
    refine ⟨hval, ?_, ?_⟩
    · intro t ht
      rw [hval] at ht
      have heq : t = jsSlice s 5000 := (Option.some.inj ht).symm
      rw [heq]
      show (s.data.take 5000).length = 5000
      rw [List.length_take]
      have h5 : 5000 < s.data.length := hlen
      omega
    · refine ⟨step1Pre ++ systemInstruction c ++ step1MidA ++ structureOrDefault c ++
        step1MidB, step1MidC ++ optTmpl (prunedSpec c) ++ step1MidD ++ prunedRef c ++
        step1MidE ++ c.gradeLevel ++ step1End, ?_⟩
      simp [step1Prompt, String.append_assoc]
  · intro s hspec hlen
    have hval : prunedSpec c = some (jsSlice s 5000) := by
      unfold prunedSpec
      rw [hspec]
      rfl
    refine ⟨hval, ?_, ?_⟩
    · intro t ht
      rw [hval] at ht
      have heq : t = jsSlice s 5000 := (Option.some.inj ht).symm
      rw [heq]
      show (s.data.take 5000).length = 5000
      rw [List.length_take]
      have h5 : 5000 < s.data.length := hlen
      omega
    · refine ⟨step1Pre ++ systemInstruction c ++ step1MidA ++ structureOrDefault c ++
        step1MidB ++ optTmpl (prunedMatrix c) ++ step1MidC, step1MidD ++ prunedRef c ++
        step1MidE ++ c.gradeLevel ++ step1End, ?_⟩
      simp [step1Prompt, String.append_assoc]

/-- C8 counterexample: the level `"toString"` is not a key of the rule
table, yet the bracket lookup finds the inherited
`Object.prototype.toString` member, which is truthy, so the
`|| DIFFICULTY_RULES['Middle School']` fallback never fires and the text
injected into the prompts is not the Middle School rule set. -/
theorem C8_difficulty_rules_cex :
    (¬ "toString" = "Primary" ∧ ¬ "toString" = "Middle School" ∧
      ¬ "toString" = "High School") ∧
    ¬ difficultyRuleVal "toString" = JsLookup.ownRule middleSchoolRule ∧
    difficultyRuleVal "toString" = JsLookup.inherited "toString" ∧
    ¬ difficultyRule "toString" = middleSchoolRule := by
  refine ⟨by decide, ?_, rfl, ?_⟩
  · intro h
    rw [show difficultyRuleVal "toString" = JsLookup.inherited "toString" from rfl] at h
    exact JsLookup.noConfusion h
  · intro h
    exact absurd h (by decide)

/-- C8 (amended): the difficulty-rule text injected into both stage prompts
is selected from the fixed rule table by exact key match on `config.level`;
a level that is neither an exact key nor the name of an `Object.prototype`
member resolves to the Middle School rule set; a level naming an
`Object.prototype` member yields that truthy inherited value (its
serialization, not any rule set). -/
theorem C8_difficulty_rules_amended (c : ExamConfig) (plan : String) :
    difficultyRule "Primary" = primaryRule ∧
    difficultyRule "Middle School" = middleSchoolRule ∧
    difficultyRule "High School" = highSchoolRule ∧
    (∀ lvl, ¬ lvl = "Primary" → ¬ lvl = "Middle School" → ¬ lvl = "High School" →
      ¬ lvl ∈ protoProps →
      difficultyRuleVal lvl = JsLookup.ownRule middleSchoolRule ∧
      difficultyRule lvl = middleSchoolRule) ∧
    (∀ lvl, lvl ∈ protoProps →
      difficultyRuleVal lvl = JsLookup.inherited lvl ∧
      difficultyRule lvl = protoPropString lvl) ∧
    (∃ a b, step1Prompt c = a ++ difficultyRule c.level ++ b) ∧
    (∃ a b, step2Prompt c plan = a ++ difficultyRule c.level ++ b) := by
  have hsys : ∃ a b, systemInstruction c = a ++ difficultyRule c.level ++ b :=
    ⟨sysPre ++ c.gradeLevel ++ sysMid, sysEnd, rfl⟩
  have hstep1 : ∃ a b, step1Prompt c = a ++ systemInstruction c ++ b :=
    ⟨step1Pre, step1MidA ++ structureOrDefault c ++ step1MidB ++
      optTmpl (prunedMatrix c) ++ step1MidC ++ optTmpl (prunedSpec c) ++
      step1MidD ++ prunedRef c ++ step1MidE ++ c.gradeLevel ++ step1End,
      by simp [step1Prompt, String.append_assoc]⟩
  have hstep2 : ∃ a b, step2Prompt c plan = a ++ systemInstruction c ++ b :=
    ⟨step2Pre ++ plan ++ step2MidA ++ c.gradeLevel ++ step2MidB,
      step2MidC ++ c.level ++ step2MidD ++ c.gradeLevel ++ step2MidE ++
      c.examType ++ step2End,
      by simp [step2Prompt, String.append_assoc]⟩
  refine ⟨rfl, rfl, rfl, ?_, ?_, ?_, ?_⟩
  · intro lvl h1 h2 h3 hp
    have hval : difficultyRuleVal lvl = JsLookup.ownRule middleSchoolRule := by
      unfold difficultyRuleVal jsLookupOr DIFFICULTY_RULES
      rw [if_neg h1, if_neg h2, if_neg h3, if_neg hp]
      rfl
    refine ⟨hval, ?_⟩
    unfold difficultyRule
    rw [hval]
    rfl
  · intro lvl hmem
    fin_cases hmem <;> exact ⟨rfl, rfl⟩
  · exact embed_trans hstep1 hsys
  · exact embed_trans hstep2 hsys

/-- The progress messages of a trace, in order. -/
def progressMsgs (tr : List Event) : List String :=
  tr.filterMap (fun e =>
    match e with
    | Event.progress m => some m
    | Event.genCall _ => none)

theorem progressMsgs_genCalls (ms : List String) :
    progressMsgs (ms.map Event.genCall) = [] := by
  induction ms with
  | nil => rfl
  | cons m tail ih => simpa [progressMsgs] using ih

theorem progressMsgs_append (t1 t2 : List Event) :
    progressMsgs (t1 ++ t2) = progressMsgs t1 ++ progressMsgs t2 := by
  simp [progressMsgs, List.filterMap_append]

theorem progressMsgs_stage (msg : String) (ms : List String) :
    progressMsgs (Event.progress msg :: ms.map Event.genCall) = [msg] := by
  rw [show progressMsgs (Event.progress msg :: ms.map Event.genCall) =
    msg :: progressMsgs (ms.map Event.genCall) from rfl, progressMsgs_genCalls]

theorem progressMsgs_twoStage (m1 m2 : String) (ms1 ms2 : List String) :
    progressMsgs (Event.progress m1 :: ms1.map Event.genCall ++
      Event.progress m2 :: ms2.map Event.genCall) = [m1, m2] := by
  rw [progressMsgs_append, progressMsgs_stage, progressMsgs_stage]
  rfl

/-- C9: the progress callback is invoked at most twice per `generateExam`
invocation; the "Step 1/2" message strictly precedes every stage-1 model
call, the "Step 2/2" message (and any stage-2 call) occurs only after a
successful stage-1 invocation and strictly precedes every stage-2 call, and
on a run that reaches a result the messages are exactly the two, in order. -/
theorem C9_progress_protocol (env : InvokerEnv) (c : ExamConfig) :
    (progressMsgs (generateExam env c).1).length ≤ 2 ∧
    (generateExam env c).1.head? = some (Event.progress step1Msg) ∧
    (∀ plan, (callWithFallback env (step1Params c)).2 = InvokeResult.ok plan →
      (generateExam env c).1 =
        Event.progress step1Msg ::
          (callWithFallback env (step1Params c)).1.map Event.genCall ++
        Event.progress step2Msg ::
          (callWithFallback env (step2Params c plan)).1.map Event.genCall) ∧
    ((∀ plan, ¬ (callWithFallback env (step1Params c)).2 = InvokeResult.ok plan) →
      (generateExam env c).1 =
        Event.progress step1Msg ::
          (callWithFallback env (step1Params c)).1.map Event.genCall) ∧
    (∀ v, (generateExam env c).2 = ExamOutcome.ok v →
      progressMsgs (generateExam env c).1 = [step1Msg, step2Msg]) := by
  rcases h1 : (callWithFallback env (step1Params c)).2 with m1 | m1 | plan0
  · have hform : generateExam env c =
        (Event.progress step1Msg ::
          (callWithFallback env (step1Params c)).1.map Event.genCall,
         ExamOutcome.errMissingKey m1) := by
      simp only [generateExam, h1]
    refine ⟨?_, ?_, ?_, ?_, ?_⟩
    · rw [hform]
      rw [show ((Event.progress step1Msg ::
          (callWithFallback env (step1Params c)).1.map Event.genCall,
          ExamOutcome.errMissingKey m1)).1 =
        Event.progress step1Msg ::
          (callWithFallback env (step1Params c)).1.map Event.genCall from rfl]
      rw [progressMsgs_stage]
      simp
    · rw [hform]
      rfl
    · intro plan hplan
      exact absurd hplan (by simp)
    · intro _
      rw [hform]
    · intro v hv
      rw [hform] at hv
      exact absurd hv (by simp)
  · have hform : generateExam env c =
        (Event.progress step1Msg ::
          (callWithFallback env (step1Params c)).1.map Event.genCall,
         ExamOutcome.errAllFailed m1) := by
      simp only [generateExam, h1]
    refine ⟨?_, ?_, ?_, ?_, ?_⟩
    · rw [hform]
      rw [show ((Event.progress step1Msg ::
          (callWithFallback env (step1Params c)).1.map Event.genCall,
          ExamOutcome.errAllFailed m1)).1 =
        Event.progress step1Msg ::
          (callWithFallback env (step1Params c)).1.map Event.genCall from rfl]
      rw [progressMsgs_stage]
      simp
    · rw [hform]
      rfl
    · intro plan hplan
      exact absurd hplan (by simp)
    · intro _
      rw [hform]
    · intro v hv
      rw [hform] at hv
      exact absurd hv (by simp)
  · have htrace : (generateExam env c).1 =
        Event.progress step1Msg ::
          (callWithFallback env (step1Params c)).1.map Event.genCall ++
        Event.progress step2Msg ::
          (callWithFallback env (step2Params c plan0)).1.map Event.genCall := by
      rcases h2 : (callWithFallback env (step2Params c plan0)).2 with m2 | m2 | text
      · simp only [generateExam, h1, h2]
      · simp only [generateExam, h1, h2]
      · rcases h3 : safeParseJSON text with v0 | m3
        · simp only [generateExam, h1, h2, h3]
        · simp only [generateExam, h1, h2, h3]
    have hmsgs : progressMsgs (generateExam env c).1 = [step1Msg, step2Msg] := by
      rw [htrace, progressMsgs_twoStage]
    refine ⟨?_, ?_, ?_, ?_, ?_⟩
    · rw [hmsgs]
      simp
    · rw [htrace]
      rfl
    · intro plan hplan
      have hpp : plan = plan0 := (InvokeResult.ok.inj hplan).symm
      rw [hpp]
      exact htrace
    · intro hall
      exact absurd rfl (hall plan0)
    · intro v _
      exact hmsgs

/-! ## Orchestrator witnesses -/

def refLongW : String := String.mk (List.replicate 15001 'a')

def matLongW : String := String.mk (List.replicate 5001 'b')

def specLongW : String := String.mk (List.replicate 5001 'c')

def cfgTruncW : ExamConfig :=
  ⟨"Middle School", "Grade 7", "45 minutes", none, some matLongW, some specLongW,
   some refLongW⟩

/-- Witness for C7 at a concrete config with oversized inputs. -/
theorem C7_truncation_witness :
    prunedRef cfgTruncW = String.mk ((List.replicate 15001 'a').take 15000) ∧
    (prunedRef cfgTruncW).length = 15000 ∧
    prunedMatrix cfgTruncW = some (String.mk ((List.replicate 5001 'b').take 5000)) ∧
    prunedSpec cfgTruncW = some (String.mk ((List.replicate 5001 'c').take 5000)) := by
  have h := C7_truncation cfgTruncW
  have hr := h.1 refLongW rfl (by
    show 15000 < (List.replicate 15001 'a').length
    rw [List.length_replicate]
    omega)
  have hm := h.2.1 matLongW rfl (by
    show 5000 < (List.replicate 5001 'b').length
    rw [List.length_replicate]
    omega)
  have hs := h.2.2 specLongW rfl (by
    show 5000 < (List.replicate 5001 'c').length
    rw [List.length_replicate]
    omega)
  exact ⟨hr.1, hr.2.1, hm.1, hs.1⟩

def cfgRulesW : ExamConfig :=
  ⟨"Primary", "Grade 3", "35 minutes", none, none, none, none⟩

/-- Witness for the amended C8: a level that names nothing falls back to
the Middle School rules, `"toString"` yields the inherited member, and the
selected text occurs in the stage-1 prompt of a concrete config. -/
theorem C8_difficulty_rules_amended_witness :
    (difficultyRuleVal "Unknown Level" = JsLookup.ownRule middleSchoolRule ∧
      difficultyRule "Unknown Level" = middleSchoolRule) ∧
    (difficultyRuleVal "toString" = JsLookup.inherited "toString" ∧
      difficultyRule "toString" = protoPropString "toString") ∧
    (∃ a b, step1Prompt cfgRulesW = a ++ difficultyRule cfgRulesW.level ++ b) := by
  have h := C8_difficulty_rules_amended cfgRulesW "PLAN"
  exact ⟨h.2.2.2.1 "Unknown Level" (by decide) (by decide) (by decide) (by decide),
    h.2.2.2.2.1 "toString" (by decide),
    h.2.2.2.2.2.1⟩

/-- Every model call returns the fixed text `"x"`. -/
def envGenW : InvokerEnv :=
  ⟨some "KEY", none, none, fun _ _ _ => GenResult.returned (some "x")⟩

def cfgGenW : ExamConfig :=
  ⟨"High School", "Grade 10", "60 minutes", none, none, none, none⟩

/-- Witness for C9: with a concrete oracle whose stage-1 call succeeds, the
trace decomposes as progress, stage-1 calls, progress, stage-2 calls. -/
theorem C9_progress_protocol_witness :
    (generateExam envGenW cfgGenW).1 =
      Event.progress step1Msg ::
        (callWithFallback envGenW (step1Params cfgGenW)).1.map Event.genCall ++
      Event.progress step2Msg ::
        (callWithFallback envGenW (step2Params cfgGenW "x")).1.map Event.genCall :=
  (C9_progress_protocol envGenW cfgGenW).2.2.1 "x" rfl
